import Mathlib

/-!
# Verification of the `rust-1brc` aggregation program

Shallow embedding of `src/main.rs` and `src/mmap.rs` of the repository
`p-h-c-s/rust-1brc`, together with theorems settling the frozen claims about
its specification.

Modelling conventions:

* Rust `f64` values are modelled as `ℚ` (exact rational arithmetic).  Every
  concrete input used in a theorem below is chosen so that the corresponding
  `f64` computation in the source is exact (small integers, and divisions
  whose results are exactly representable), so each concrete evaluation
  agrees bit-for-bit with what the Rust program computes.
* Byte strings (`&str`, `String` keys) are modelled as `List Char`; the mmap
  byte slices (`&[u8]`) are modelled as `List Nat` with `10` for `b'\n'`.
* A Rust `panic!` / `.unwrap()` failure is modelled by `Option`/`none`
  propagation: fallible steps return `none`, and the driver propagates it,
  matching the fail-fast behaviour of the program (a consumer panic reaches
  `join().unwrap()` and aborts the whole run with a non-zero exit status).
* Functions whose Rust counterparts recurse on non-structural measures are
  written with an explicit fuel argument initialised to a provably
  sufficient bound, so that all definitions compute by kernel reduction.
-/

/-- Model of `struct StationData` (main.rs:12–17).  The four `f64` fields are
modelled as rationals. -/
structure StationData where
  min_temp : ℚ
  max_temp : ℚ
  mean_temp : ℚ
  times_seen : ℚ
deriving DecidableEq, Repr

namespace StationData

/-- Model of `StationData::new` (main.rs:20–27).  Note that the source
initialises the `times_seen` field to `temp`, not to `1.0`. -/
def new (temp : ℚ) : StationData :=
  { min_temp := temp, max_temp := temp, mean_temp := temp, times_seen := temp }

/-- Model of `StationData::running_avg` (main.rs:41–44):
`(self.mean_temp * (self.times_seen - 1.0) + temp) / self.times_seen`. -/
def running_avg (s : StationData) (temp : ℚ) : ℚ :=
  (s.mean_temp * (s.times_seen - 1) + temp) / s.times_seen

/-- Model of `StationData::update_from` (main.rs:46–51).  `running_avg` is
evaluated before `times_seen` is incremented, exactly as in the source. -/
def update_from (s : StationData) (temp : ℚ) : StationData :=
  { max_temp := max s.max_temp temp
    min_temp := min s.min_temp temp
    mean_temp := s.running_avg temp
    times_seen := s.times_seen + 1 }

/-- Model of `StationData::update_from_station` (main.rs:53–58).  The source
folds `src.mean_temp` in as if it were a single fresh observation:
`running_avg(src.mean_temp)` and `times_seen += 1.0`. -/
def update_from_station (s : StationData) (src : StationData) : StationData :=
  { max_temp := max s.max_temp src.max_temp
    min_temp := min s.min_temp src.min_temp
    mean_temp := s.running_avg src.mean_temp
    times_seen := s.times_seen + 1 }

end StationData

/-- The per-consumer `BTreeMap<String, StationData>` is modelled as an
association list with unique keys; theorems about it only ever compare
per-key lookups or fully concrete maps, so the entry order is irrelevant. -/
abbrev AggMap := List (List Char × StationData)

/-- Lookup in the association list (read side of `BTreeMap::get_mut`). -/
def aLookup (k : List Char) : AggMap → Option StationData
  | [] => none
  | (k', v) :: rest => if k' = k then some v else aLookup k rest

/-- Rewrite the binding of key `k` (write side of `BTreeMap::get_mut`). -/
def aUpdate (k : List Char) (f : StationData → StationData) : AggMap → AggMap
  | [] => []
  | (k', v) :: rest =>
    if k' = k then (k', f v) :: rest else (k', v) :: aUpdate k f rest

/-- Model of `merge_btrees` (main.rs:84–96): for each `(src_key, src_val)` of
`src` in order, update the existing `dest` entry via `update_from_station`,
or insert the `src` entry unchanged. -/
def merge_btrees (dest src : AggMap) : AggMap :=
  src.foldl
    (fun d kv =>
      match aLookup kv.1 d with
      | some _ => aUpdate kv.1 (fun s => s.update_from_station kv.2) d
      | none => d ++ [kv])
    dest

/-! ## The line parser

`StationData::parse_data` (main.rs:72–75) does
`raw.split_once(";")` followed by `temp.parse::<f64>()`, each `.unwrap()`ed.
The model of `str::parse::<f64>` below follows the grammar documented for
Rust's `f64::from_str`:
`[+-]? ( 'inf' | 'infinity' | 'nan' | digits | digits '.' digits? |
digits? '.' digits ) ( ('e'|'E') [+-]? digits )?`, case-insensitive for the
special values.  `inf`/`infinity`/`nan` have no rational counterpart; they
are accepted (faithfully to the source) with the arbitrary value `0` — no
theorem below depends on the value assigned to them, only on the fact that
such inputs do *not* make the program panic. -/

/-- ASCII lower-casing of one character (used only to model the
case-insensitive match of `inf`/`infinity`/`nan`). -/
def lowerChar (c : Char) : Char :=
  if 65 ≤ c.toNat ∧ c.toNat ≤ 90 then Char.ofNat (c.toNat + 32) else c

/-- ASCII digit test (`u8::is_ascii_digit`), written as an explicit table so
that case analysis on a digit is a ten-way split. -/
def isDigit (c : Char) : Bool :=
  c == '0' || c == '1' || c == '2' || c == '3' || c == '4' ||
  c == '5' || c == '6' || c == '7' || c == '8' || c == '9'

/-- Value of one ASCII digit (`c - b'0'` in the source; written as a table so
that it reduces in term position; the `_` branch is unreachable for inputs
that pass `isDigit`). -/
def digitVal : Char → Nat
  | '0' => 0
  | '1' => 1
  | '2' => 2
  | '3' => 3
  | '4' => 4
  | '5' => 5
  | '6' => 6
  | '7' => 7
  | '8' => 8
  | '9' => 9
  | _ => 0

/-- Numeric value of a digit string, most significant digit first. -/
def natOfDigits (l : List Char) : Nat :=
  l.foldl (fun a c => 10 * a + digitVal c) 0

/-- All characters are ASCII digits. -/
def allDigits (l : List Char) : Bool :=
  l.all isDigit

/-- Split at the first character satisfying `p`, returning the parts before
and after it (the separator itself is dropped); `none` when no character
matches.  Models `str::split_once` and the separator searches of the float
grammar. -/
def splitFirstP (p : Char → Bool) : List Char → Option (List Char × List Char)
  | [] => none
  | c :: rest =>
    if p c then some ([], rest)
    else
      match splitFirstP p rest with
      | some (l, r) => some (c :: l, r)
      | none => none

/-- The special values accepted by `f64::from_str` (case-insensitive). -/
def isInfNan (l : List Char) : Bool :=
  let low := l.map lowerChar
  low = ['i', 'n', 'f'] ||
  low = ['i', 'n', 'f', 'i', 'n', 'i', 't', 'y'] ||
  low = ['n', 'a', 'n']

/-- Strip one optional leading sign, returning `(isNegative, rest)`. -/
def stripSign : List Char → Bool × List Char
  | '-' :: rest => (true, rest)
  | '+' :: rest => (false, rest)
  | l => (false, l)

/-- Mantissa of the float grammar: digits with at most one `'.'`, at least
one digit in total. -/
def parseMantissa (m : List Char) : Option ℚ :=
  match splitFirstP (fun c => c == '.') m with
  | none =>
    if m ≠ [] ∧ allDigits m = true then some ((natOfDigits m : ℚ)) else none
  | some (ip, fp) =>
    if (ip ≠ [] ∨ fp ≠ []) ∧ allDigits ip = true ∧ allDigits fp = true then
      some ((natOfDigits ip : ℚ) + (natOfDigits fp : ℚ) / 10 ^ fp.length)
    else none

/-- Exponent part of the float grammar: optional sign, at least one digit. -/
def parseExpPart (e : List Char) : Option ℤ :=
  let sg := stripSign e
  if sg.2 ≠ [] ∧ allDigits sg.2 = true then
    some ((if sg.1 then -1 else 1) * (natOfDigits sg.2 : ℤ))
  else none

/-- Model of `str::parse::<f64>` (as called at main.rs:74), idealised over
exact rationals; see the section comment above. -/
def parseF64 (s : List Char) : Option ℚ :=
  let sg := stripSign s
  if isInfNan sg.2 then some 0
  else
    match splitFirstP (fun c => c == 'e' || c == 'E') sg.2 with
    | none =>
      match parseMantissa sg.2 with
      | none => none
      | some mv => some ((if sg.1 then -1 else 1) * mv)
    | some (m, e) =>
      match parseMantissa m with
      | none => none
      | some mv =>
        match parseExpPart e with
        | none => none
        | some ev => some ((if sg.1 then -1 else 1) * mv * (10 : ℚ) ^ ev)

namespace StationData

/-- Model of `StationData::parse_data` (main.rs:72–75).  The two `.unwrap()`
panics (no `';'` in the line; value rejected by the float parser) are
modelled as `none`. -/
def parse_data (raw : List Char) : Option (List Char × ℚ) :=
  match splitFirstP (fun c => c == ';') raw with
  | none => none
  | some (name, temp) =>
    match parseF64 temp with
    | none => none
    | some v => some (name, v)

end StationData

/-! ## The consumer pipeline of `main` (main.rs:141–220)

The reader thread accumulates up to 1000 raw lines (`read_line`, terminators
included) into one `String` per batch and round-robins the batches over the
4 channels (`NUM_CONSUMERS = 4`, batch sent every 1000 lines and at EOF).
Each consumer recovers exactly its batches' lines via
`parse_line_buff = split_terminator("\n")`: concatenating raw lines and
re-splitting at terminators is the identity on the line list, because a raw
line contains `'\n'` only as its final character.  The model therefore
passes each batch as its list of terminator-free lines directly. -/

/-- Model of `str::split_terminator("\n")` (`parse_line_buff`,
main.rs:77–79), and of the decomposition of the input file into the lines
the program processes.  `acc` holds the characters of the current line in
reverse. -/
def splitTermAux (acc : List Char) : List Char → List (List Char)
  | [] => if acc = [] then [] else [acc.reverse]
  | c :: rest =>
    if c = '\n' then acc.reverse :: splitTermAux [] rest
    else splitTermAux (c :: acc) rest

/-- The lines of a file/batch, `split_terminator("\n")` semantics. -/
def splitTerm (l : List Char) : List (List Char) :=
  splitTermAux [] l

/-- One iteration of the consumer loop body (main.rs:200–206): parse the
line, then `get_mut`-update or insert a fresh `StationData`.  A parse
failure (`unwrap` panic) is `none`. -/
def consumeLine (m : AggMap) (line : List Char) : Option AggMap :=
  match StationData.parse_data line with
  | none => none
  | some (name, temp) =>
    match aLookup name m with
    | some _ => some (aUpdate name (fun s => s.update_from temp) m)
    | none => some (m ++ [(name, StationData.new temp)])

/-- A consumer processing the lines of one received batch in order. -/
def consumeLines (m : AggMap) : List (List Char) → Option AggMap
  | [] => some m
  | line :: rest =>
    match consumeLine m line with
    | none => none
    | some m' => consumeLines m' rest

/-- A consumer thread (main.rs:190–212): fold all batches received on its
channel into one map, starting from the empty `BTreeMap`. -/
def consumerRun (m : AggMap) : List (List (List Char)) → Option AggMap
  | [] => some m
  | b :: rest =>
    match consumeLines m b with
    | none => none
    | some m' => consumerRun m' rest

/-- Grouping of the file's lines into the reader thread's batches
(main.rs:169–186): full groups of 1000 lines, then one final (possibly
empty) group sent when `read_line` returns 0 bytes.  Fuel-based; the
fallback `[l]` is unreachable for `fuel ≥ l.length` and keeps the
join-identity unconditional. -/
def batchesAux : Nat → List (List Char) → List (List (List Char))
  | 0, l => [l]
  | fuel + 1, l =>
    if l.length < 1000 then [l]
    else l.take 1000 :: batchesAux fuel (l.drop 1000)

/-- The batch sequence produced by the reader thread for a given line list. -/
def batches (lines : List (List Char)) : List (List (List Char)) :=
  batchesAux lines.length lines

/-- The sub-sequence of batches sent to channel `j` (`get_round_robin`,
main.rs:127–131, with `NUM_CONSUMERS = 4`): batch number `i` goes to channel
`i % 4`. -/
def chanBatchesAux (j : Nat) : Nat → List (List (List Char)) → List (List (List Char))
  | _, [] => []
  | i, b :: rest =>
    if i % 4 = j then b :: chanBatchesAux j (i + 1) rest
    else chanBatchesAux j (i + 1) rest

/-- Batches delivered to channel `j` (counting from batch number 0). -/
def chanBatches (j : Nat) (bs : List (List (List Char))) : List (List (List Char)) :=
  chanBatchesAux j 0 bs

/-- Model of the aggregation pipeline of `main` (main.rs:168–220) on a file
with the given character content: the reader splits the content into lines
and distributes batches round-robin; the fold at main.rs:216–219 joins the
handlers in spawn order, and handler number `h` holds the receiver popped
from the end of `rx_channels`, i.e. channel `3 - h`; so the merge order is
channels 3, 2, 1, 0 folded into an initially empty map.  Any consumer panic
(malformed line) aborts the run: `none`. -/
def runMerged (content : List Char) : Option AggMap :=
  match consumerRun [] (chanBatches 3 (batches (splitTerm content))) with
  | none => none
  | some m3 =>
    match consumerRun [] (chanBatches 2 (batches (splitTerm content))) with
    | none => none
    | some m2 =>
      match consumerRun [] (chanBatches 1 (batches (splitTerm content))) with
      | none => none
      | some m1 =>
        match consumerRun [] (chanBatches 0 (batches (splitTerm content))) with
        | none => none
        | some m0 =>
          some (merge_btrees (merge_btrees (merge_btrees
            (merge_btrees [] m3) m2) m1) m0)

/-- Model of `main`'s command-line handling (main.rs:143–147):
`args.get(2)` with default `"sample.txt"`.  `args` is the full `env::args()`
vector, whose element 0 is the program name. -/
def chooseFileName (args : List (List Char)) : List Char :=
  match args.get? 2 with
  | some fname => fname
  | none => "sample.txt".toList

/-- The lines `main` writes to standard output (main.rs:150, main.rs:237):
`"Reading from {file_name}"` before processing and `"finished reading"`
after the scope completes.  On a panic inside the scope (malformed input)
the second line is never printed.  No other output is produced. -/
def mainStdout (fileName content : List Char) : List (List Char) :=
  match runMerged content with
  | some _ => ["Reading from ".toList ++ fileName, "finished reading".toList]
  | none => ["Reading from ".toList ++ fileName]

/-! ## Reference definitions (from the spec, for comparison)

These definitions follow the specification's words, not the source; they
give the "true" statistics a correct aggregator would produce, and are used
to state divergences. -/

/-- The records `(key, value)` of a file, per the spec's input format: one
record per line, the program's own line and value parsing. -/
def recordsOf (content : List Char) : List (List Char × ℚ) :=
  (splitTerm content).filterMap StationData.parse_data

/-- All values recorded for a key. -/
def valuesFor (k : List Char) (content : List Char) : List ℚ :=
  (recordsOf content).filterMap (fun kv => if kv.1 = k then some kv.2 else none)

/-- Spec-side true arithmetic mean of the values recorded for a key. -/
def trueMean (k : List Char) (content : List Char) : ℚ :=
  (valuesFor k content).sum / (valuesFor k content).length

/-- Spec-side decimal value of a fixed-point literal `d₁.d₂` with optional
sign: what the spec calls "the decimal value" of the record's value field. -/
def decValue (neg : Bool) (intDigits fracDigits : List Char) : ℚ :=
  (if neg then -1 else 1) *
    ((natOfDigits intDigits : ℚ) +
      (natOfDigits fracDigits : ℚ) / 10 ^ fracDigits.length)

/-! ## The mmap chunk iterator (`src/mmap.rs`)

Byte slices are `List Nat`; `b'\n' = 10`.  `MmapChunkIterator` holds the
remaining slice and a fixed `chunk_size`. -/

/-- Model of `rposition(|&x| x == b'\n')`: index of the last newline byte. -/
def rposNL : List Nat → Option Nat
  | [] => none
  | b :: rest =>
    match rposNL rest with
    | some i => some (i + 1)
    | none => if b = 10 then some 0 else none

/-- Model of `MmapChunkIterator::next` (mmap.rs:93–112): `none` on an empty
remaining slice; otherwise split after the last newline of the first
`min(chunk_size, len)` bytes, or at `chunk_end` when that window has no
newline, returning `(yielded chunk, remaining slice)`. -/
def mmapNext (chunkSize : Nat) (d : List Nat) : Option (List Nat × List Nat) :=
  if d = [] then none
  else
    let chunkEnd := min chunkSize d.length
    let chunk := d.take chunkEnd
    let splitAt :=
      match rposNL chunk with
      | some i => i + 1
      | none => chunkEnd
    some (d.take splitAt, d.drop splitAt)

/-- Model of `MmapChunkIterator::with_consumers` (mmap.rs:64–67):
`chunk_size = data.len() / consumers` (integer division). -/
def chunkSizeOf (d : List Nat) (consumers : Nat) : Nat :=
  d.length / consumers

/-- Driving the iterator to exhaustion, fuel-based.  When
`chunk_size ≥ 1` every step strictly shrinks the slice, so
`fuel = d.length` drains any slice completely. -/
def chunksAux (chunkSize : Nat) : Nat → List Nat → List (List Nat)
  | 0, _ => []
  | fuel + 1, d =>
    match mmapNext chunkSize d with
    | none => []
    | some (c, rest) => c :: chunksAux chunkSize fuel rest

/-- The chunk sequence `MmapChunkIterator::new(data, n)` yields. -/
def mmapChunks (d : List Nat) (consumers : Nat) : List (List Nat) :=
  chunksAux (chunkSizeOf d consumers) d.length d

/-! ## Helper lemmas: the chunk iterator -/

/-- When `chunk_size ≥ 1`, one `next()` call on a non-empty slice yields a
non-empty chunk, splits the slice exactly, and strictly shrinks it. -/
theorem mmapNext_progress (cs : Nat) (d : List Nat) (hcs : 1 ≤ cs)
    (hd : d ≠ []) :
    ∃ c rest, mmapNext cs d = some (c, rest) ∧ c ≠ [] ∧ c ++ rest = d ∧
      rest.length < d.length := by
  have hlen : 1 ≤ d.length := List.length_pos.mpr hd
  have hmin : 1 ≤ min cs d.length := le_min hcs hlen
  cases hr : rposNL (d.take (min cs d.length)) with
  | none =>
    refine ⟨d.take (min cs d.length), d.drop (min cs d.length), ?_, ?_,
      List.take_append_drop _ _, ?_⟩
    · simp only [mmapNext, if_neg hd, hr]
    · have : (d.take (min cs d.length)).length = min (min cs d.length) d.length := by
        simp [List.length_take]
      intro hnil
      rw [hnil] at this
      simp only [List.length_nil] at this
      omega
    · have := List.length_drop (min cs d.length) d
      omega
  | some i =>
    refine ⟨d.take (i + 1), d.drop (i + 1), ?_, ?_,
      List.take_append_drop _ _, ?_⟩
    · simp only [mmapNext, if_neg hd, hr]
    · have : (d.take (i + 1)).length = min (i + 1) d.length := by
        simp [List.length_take]
      intro hnil
      rw [hnil] at this
      simp only [List.length_nil] at this
      omega
    · have := List.length_drop (i + 1) d
      omega

/-- When `chunk_size ≥ 1`, driving the iterator with fuel at least the slice
length yields chunks whose concatenation is the whole slice. -/
theorem chunksAux_join (cs : Nat) (hcs : 1 ≤ cs) :
    ∀ fuel d, d.length ≤ fuel → (chunksAux cs fuel d).flatten = d := by
  intro fuel
  induction fuel with
  | zero =>
    intro d hd
    have : d = [] := List.eq_nil_of_length_eq_zero (Nat.le_zero.mp hd)
    subst this
    simp [chunksAux]
  | succ f ih =>
    intro d hd
    by_cases h : d = []
    · subst h
      simp [chunksAux, mmapNext]
    · obtain ⟨c, rest, hnext, _, happ, hlt⟩ := mmapNext_progress cs d hcs h
      have hstep : chunksAux cs (f + 1) d = c :: chunksAux cs f rest := by
        simp only [chunksAux, hnext]
      rw [hstep, List.flatten_cons, ih rest (by omega)]
      exact happ

/-- C7 counterexample: for the 7-byte file `"abcdef\n"` and `N = 3` the
iterator yields 4 chunks, not 3, and the single line of the file is spread
over all of the first three chunks (the computed `chunk_size` is
`7 / 3 = 2` and no newline occurs in the first windows). -/
theorem c7_chunk_count_counterexample :
    mmapChunks [97, 98, 99, 100, 101, 102, 10] 3 =
      [[97, 98], [99, 100], [101, 102], [10]] ∧
    (mmapChunks [97, 98, 99, 100, 101, 102, 10] 3).length ≠ 3 := by
  decide

/-- C7 (amended): for every file and every `N` with `1 ≤ N ≤ fileLen`, the
chunks the iterator produces are contiguous, non-overlapping, and their
union is exactly the whole region (their concatenation is the file); the
number of chunks may differ from `N`, and a line may span several chunks. -/
theorem c7_chunks_cover (d : List Nat) (n : Nat) (h1 : 1 ≤ n)
    (h2 : n ≤ d.length) : (mmapChunks d n).flatten = d := by
  have hcs : 1 ≤ chunkSizeOf d n := (Nat.one_le_div_iff (by omega)).mpr h2
  exact chunksAux_join _ hcs _ d le_rfl

/-- Witness for `c7_chunks_cover` at the concrete file `"abcdef\n"`, `N = 3`. -/
theorem c7_chunks_cover_witness :
    (mmapChunks [97, 98, 99, 100, 101, 102, 10] 3).flatten =
      [97, 98, 99, 100, 101, 102, 10] :=
  c7_chunks_cover [97, 98, 99, 100, 101, 102, 10] 3 (by decide) (by decide)

/-- C10: with `chunk_size = fileLen / num_consumers ≥ 1`, every `next()`
call on a non-empty remaining slice returns a non-empty chunk and strictly
shrinks the remainder, and the full iteration concatenates back to the
region; when the computed `chunk_size` is `0` (`num_consumers > fileLen`),
`next()` returns an empty chunk and leaves the slice untouched — no
progress is ever made. -/
theorem c10_chunk_progress (d : List Nat) (n : Nat) (hd : d ≠ [])
    (hn : 1 ≤ n) :
    (1 ≤ chunkSizeOf d n →
      (∀ r : List Nat, r ≠ [] →
        ∃ c rest, mmapNext (chunkSizeOf d n) r = some (c, rest) ∧
          c ≠ [] ∧ c ++ rest = r ∧ rest.length < r.length) ∧
      (mmapChunks d n).flatten = d) ∧
    (chunkSizeOf d n = 0 →
      ∀ r : List Nat, r ≠ [] → mmapNext (chunkSizeOf d n) r = some ([], r)) := by
  constructor
  · intro hcs
    exact ⟨fun r hr => mmapNext_progress _ r hcs hr,
      chunksAux_join _ hcs _ d le_rfl⟩
  · intro hcs r hr
    simp only [mmapNext, if_neg hr, hcs]
    simp [rposNL]

/-- Witness for `c10_chunk_progress` at the file `"a\nb"`, 3 consumers
(`chunk_size = 1`). -/
theorem c10_chunk_progress_witness :
    (mmapChunks [97, 10, 98] 3).flatten = [97, 10, 98] :=
  ((c10_chunk_progress [97, 10, 98] 3 (by decide) (by decide)).1 (by decide)).2

/-! ## Helper lemmas: the reader/consumer pipeline -/

/-- Concatenating the reader's batches gives back the full line list (for
any fuel: the fuel-exhausted fallback also preserves it). -/
theorem batchesAux_flatten : ∀ fuel l, (batchesAux fuel l).flatten = l := by
  intro fuel
  induction fuel with
  | zero => intro l; simp [batchesAux]
  | succ f ih =>
    intro l
    by_cases h : l.length < 1000
    · simp [batchesAux, h]
    · simp only [batchesAux, if_neg h, List.flatten_cons, ih]
      exact List.take_append_drop _ _

/-- Every batch is delivered to one of the four channels. -/
theorem mem_chanBatchesAux :
    ∀ (bs : List (List (List Char))) (i : Nat) (b : List (List Char)),
      b ∈ bs → ∃ j, j < 4 ∧ b ∈ chanBatchesAux j i bs := by
  intro bs
  induction bs with
  | nil => intro i b hb; cases hb
  | cons hd tl ih =>
    intro i b hb
    rcases List.mem_cons.mp hb with h | h
    · refine ⟨i % 4, Nat.mod_lt _ (by omega), ?_⟩
      subst h
      simp [chanBatchesAux]
    · obtain ⟨j, hj, hmem⟩ := ih (i + 1) b h
      refine ⟨j, hj, ?_⟩
      by_cases he : i % 4 = j
      · simp only [chanBatchesAux, if_pos he]
        exact List.mem_cons_of_mem _ hmem
      · simpa only [chanBatchesAux, if_neg he] using hmem

/-- A batch containing a malformed line makes the consumer fail, whatever
its current map is. -/
theorem consumeLines_bad (b : List (List Char)) (line : List Char)
    (hmem : line ∈ b) (hbad : StationData.parse_data line = none) :
    ∀ m, consumeLines m b = none := by
  induction b with
  | nil => cases hmem
  | cons hd tl ih =>
    intro m
    rcases List.mem_cons.mp hmem with h | h
    · subst h
      simp [consumeLines, consumeLine, hbad]
    · cases hcl : consumeLine m hd with
      | none => simp [consumeLines, hcl]
      | some m' => simp [consumeLines, hcl, ih h]

/-- A consumer that receives a failing batch fails. -/
theorem consumerRun_bad (bss : List (List (List Char)))
    (b : List (List Char)) (hmem : b ∈ bss)
    (hb : ∀ m, consumeLines m b = none) :
    ∀ m, consumerRun m bss = none := by
  induction bss with
  | nil => cases hmem
  | cons hd tl ih =>
    intro m
    rcases List.mem_cons.mp hmem with h | h
    · subst h
      simp [consumerRun, hb m]
    · cases hcl : consumeLines m hd with
      | none => simp [consumerRun, hcl]
      | some m' => simp [consumerRun, hcl, ih h]

/-- If any of the four consumers fails, the whole run fails (the fold joins
every handler and `unwrap`s its result). -/
theorem runMerged_eq_none (content : List Char) (j : Nat) (hj : j < 4)
    (h : consumerRun [] (chanBatches j (batches (splitTerm content))) = none) :
    runMerged content = none := by
  interval_cases j
  · rcases e3 : consumerRun [] (chanBatches 3 (batches (splitTerm content))) with _ | m3
    · simp [runMerged, e3]
    · rcases e2 : consumerRun [] (chanBatches 2 (batches (splitTerm content))) with _ | m2
      · simp [runMerged, e3, e2]
      · rcases e1 : consumerRun [] (chanBatches 1 (batches (splitTerm content))) with _ | m1
        · simp [runMerged, e3, e2, e1]
        · simp [runMerged, e3, e2, e1, h]
  · rcases e3 : consumerRun [] (chanBatches 3 (batches (splitTerm content))) with _ | m3
    · simp [runMerged, e3]
    · rcases e2 : consumerRun [] (chanBatches 2 (batches (splitTerm content))) with _ | m2
      · simp [runMerged, e3, e2]
      · simp [runMerged, e3, e2, h]
  · rcases e3 : consumerRun [] (chanBatches 3 (batches (splitTerm content))) with _ | m3
    · simp [runMerged, e3]
    · simp [runMerged, e3, h]
  · simp [runMerged, h]

/-- C8 counterexample: the input `"A;1e2\n"` has a value containing the
unexpected byte `'e'` (neither a digit, `'.'`, nor `'-'`), yet the run does
not fail: `"1e2"` is accepted by `str::parse::<f64>` (exponent notation)
and the run completes with the aggregate for `"A"` (whose `times_seen` also
exhibits the `StationData::new` initialisation, being `100`). -/
theorem c8_unexpected_byte_accepted :
    ('e' ∈ "1e2".toList ∧ isDigit 'e' = false ∧ 'e' ≠ '.' ∧ 'e' ≠ '-') ∧
    runMerged "A;1e2\n".toList = some [("A".toList, ⟨100, 100, 100, 100⟩)] := by
  constructor
  · decide
  · norm_num +decide [runMerged, batches, batchesAux, chanBatches,
      chanBatchesAux, consumerRun, consumeLines, consumeLine, splitTerm,
      splitTermAux, StationData.parse_data, parseF64, parseMantissa,
      parseExpPart, splitFirstP, stripSign, isInfNan, allDigits, isDigit,
      natOfDigits, digitVal, lowerChar, aLookup, aUpdate, merge_btrees,
      StationData.new, StationData.update_from, StationData.running_avg,
      max_def, min_def]

/-- C8 (amended): for every input containing a line that lacks a `';'` or
whose value is rejected by the float parser, the run fails fatally — the
consumer thread's `unwrap` panics, `join().unwrap()` re-raises it, the
process terminates with non-zero status — and no aggregated output is
emitted (stdout carries only the initial diagnostic line).  Restriction
against the original claim: a value merely containing a byte outside
`{'-', '.', digits}` need not fail, since the float parser also accepts
exponent and `inf`/`nan` forms (see the counterexample). -/
theorem c8_malformed_aborts (content line : List Char)
    (hmem : line ∈ splitTerm content)
    (hbad : StationData.parse_data line = none) :
    runMerged content = none ∧
      ∀ fn, mainStdout fn content = ["Reading from ".toList ++ fn] := by
  have h1 : line ∈ (batches (splitTerm content)).flatten := by
    rw [batches, batchesAux_flatten]
    exact hmem
  obtain ⟨b, hb, hlb⟩ := List.mem_flatten.mp h1
  obtain ⟨j, hj, hjb⟩ := mem_chanBatchesAux _ 0 b hb
  have hrun : runMerged content = none :=
    runMerged_eq_none content j hj
      (consumerRun_bad _ b hjb (consumeLines_bad b line hlb hbad) [])
  exact ⟨hrun, fun fn => by simp [mainStdout, hrun]⟩

/-- Witness for `c8_malformed_aborts`: the spec's own scenario `"A;abc\n"`. -/
theorem c8_malformed_aborts_witness :
    runMerged "A;abc\n".toList = none :=
  (c8_malformed_aborts "A;abc\n".toList "A;abc".toList (by decide)
    (by decide)).1

/-- C1: evaluating `merge_btrees` on maps that both contain key `"k"` —
`dest` holding an aggregate with `times_seen = 1` and `src` one with
`times_seen = 5` — produces `times_seen = 2`: `update_from_station` adds
`1.0` instead of `src.times_seen`, so the claimed `count = dest.count +
src.count` (here `1 + 5 = 6`) fails; the claimed `sum` field does not exist
at all (a `mean_temp` is stored instead, recomputed via `running_avg`). -/
theorem c1_merge_count_eval :
    aLookup "k".toList
        (merge_btrees [("k".toList, ⟨1, 1, 1, 1⟩)]
          [("k".toList, ⟨3, 3, 3, 5⟩)]) =
      some ⟨1, 3, 3, 2⟩ ∧
    (2 : ℚ) ≠ 1 + 5 := by
  constructor
  · norm_num +decide [merge_btrees, aLookup, aUpdate,
      StationData.update_from_station, StationData.running_avg, max_def,
      min_def]
  · norm_num

/-- C2: on the file `"A;1.0\nA;2.0\nA;3.0\n"` the program's final aggregate
for `"A"` has `mean_temp = 5/2`, while the true arithmetic mean of the
recorded values is `2`; the error `1/2` far exceeds the `1/20` rounding
precision of the one-fractional-digit output format.  (All the `f64`
operations involved are exact at these inputs.)  The min and max fields are
correct here; the mean is not. -/
theorem c2_mean_eval :
    runMerged "A;1.0\nA;2.0\nA;3.0\n".toList =
      some [("A".toList, ⟨1, 3, 5/2, 3⟩)] ∧
    trueMean "A".toList "A;1.0\nA;2.0\nA;3.0\n".toList = 2 ∧
    (5/2 - 2 : ℚ) > 1/20 := by
  refine ⟨?_, ?_, by norm_num⟩
  · norm_num +decide [runMerged, batches, batchesAux, chanBatches,
      chanBatchesAux, consumerRun, consumeLines, consumeLine, splitTerm,
      splitTermAux, StationData.parse_data, parseF64, parseMantissa,
      parseExpPart, splitFirstP, stripSign, isInfNan, allDigits, isDigit,
      natOfDigits, digitVal, lowerChar, aLookup, aUpdate, merge_btrees,
      StationData.new, StationData.update_from, StationData.running_avg,
      max_def, min_def]
  · norm_num +decide [trueMean, valuesFor, recordsOf, splitTerm,
      splitTermAux, StationData.parse_data, parseF64, parseMantissa,
      splitFirstP, stripSign, isInfNan, allDigits, isDigit, natOfDigits,
      digitVal, lowerChar, List.filterMap_cons, List.filterMap_nil,
      List.sum_cons, List.sum_nil]

/-- C3: `merge_btrees` is not commutative.  For `A = {k ↦ ⟨0,0,0,2⟩}` and
`B = {k ↦ ⟨8,8,8,4⟩}`, `merge(A,B)` holds `⟨0,8,4,3⟩` at `k` while
`merge(B,A)` holds `⟨0,8,6,5⟩` — the mean and count of the merged entry
depend on the merge order (the min/max happen to agree).  Both
computations are exact in `f64`. -/
theorem c3_merge_not_commutative_eval :
    aLookup "k".toList
        (merge_btrees [("k".toList, ⟨0, 0, 0, 2⟩)]
          [("k".toList, ⟨8, 8, 8, 4⟩)]) = some ⟨0, 8, 4, 3⟩ ∧
    aLookup "k".toList
        (merge_btrees [("k".toList, ⟨8, 8, 8, 4⟩)]
          [("k".toList, ⟨0, 0, 0, 2⟩)]) = some ⟨0, 8, 6, 5⟩ ∧
    (⟨0, 8, 4, 3⟩ : StationData) ≠ ⟨0, 8, 6, 5⟩ := by
  refine ⟨?_, ?_, by norm_num [StationData.mk.injEq]⟩ <;>
    norm_num +decide [merge_btrees, aLookup, aUpdate,
      StationData.update_from_station, StationData.running_avg, max_def,
      min_def]

/-- C4: `StationData::new(10.0)` initialises `times_seen` to `10`, not to
the claimed count of `1` (and stores the value in `mean_temp`; no `sum`
field exists). -/
theorem c4_new_count_eval :
    StationData.new 10 = ⟨10, 10, 10, 10⟩ ∧
    (StationData.new 10).times_seen ≠ 1 := by
  constructor
  · rfl
  · norm_num [StationData.new]

/-- C6: on the successfully processed file `"A;10.0\n"` the program writes
exactly the two diagnostic lines `"Reading from sample.txt"` and
`"finished reading"` to standard output; the aggregated report the claim
describes (`"{A=10.0/10.0/10.0}"`) is never emitted — the merged map is
computed and then discarded. -/
theorem c6_no_report_eval :
    mainStdout "sample.txt".toList "A;10.0\n".toList =
      ["Reading from sample.txt".toList, "finished reading".toList] ∧
    "{A=10.0/10.0/10.0}".toList ∉
      mainStdout "sample.txt".toList "A;10.0\n".toList := by
  have h : mainStdout "sample.txt".toList "A;10.0\n".toList =
      ["Reading from sample.txt".toList, "finished reading".toList] := by
    norm_num +decide [mainStdout, runMerged, batches, batchesAux,
      chanBatches, chanBatchesAux, consumerRun, consumeLines, consumeLine,
      splitTerm, splitTermAux, StationData.parse_data, parseF64,
      parseMantissa, splitFirstP, stripSign, isInfNan, allDigits, isDigit,
      natOfDigits, digitVal, lowerChar, aLookup, aUpdate, merge_btrees,
      StationData.new, max_def, min_def]
  refine ⟨h, ?_⟩
  rw [h]
  decide

/-- C9: with the single positional argument `"measurements.txt"`
(`args = [program_name, "measurements.txt"]`), the program reads the
default `"sample.txt"` instead of the supplied path — `main` looks up
`args.get(2)`, the *second* positional argument, which it uses when
present. -/
theorem c9_second_arg_eval :
    chooseFileName ["./rust-1brc".toList, "measurements.txt".toList] =
      "sample.txt".toList ∧
    "sample.txt".toList ≠ "measurements.txt".toList ∧
    chooseFileName
        ["./rust-1brc".toList, "first.txt".toList, "second.txt".toList] =
      "second.txt".toList := by
  decide

/-! ## Helper lemmas: the float grammar on plain decimal literals -/

theorem splitFirstP_none_of (p : Char → Bool) (l : List Char)
    (h : ∀ c ∈ l, p c = false) : splitFirstP p l = none := by
  induction l with
  | nil => rfl
  | cons hd tl ih =>
    simp only [splitFirstP, h hd (List.mem_cons_self hd tl), Bool.false_eq_true,
      if_false, ih (fun c hc => h c (List.mem_cons_of_mem hd hc))]

theorem splitFirstP_append (p : Char → Bool) (l r : List Char) (sep : Char)
    (hl : ∀ c ∈ l, p c = false) (hsep : p sep = true) :
    splitFirstP p (l ++ sep :: r) = some (l, r) := by
  induction l with
  | nil => simp [splitFirstP, hsep]
  | cons hd tl ih =>
    simp only [List.cons_append, splitFirstP,
      hl hd (List.mem_cons_self hd tl), Bool.false_eq_true, if_false,
      List.append_eq, ih (fun c hc => hl c (List.mem_cons_of_mem hd hc))]

theorem digit_cases (c : Char) (h : isDigit c = true) :
    c = '0' ∨ c = '1' ∨ c = '2' ∨ c = '3' ∨ c = '4' ∨ c = '5' ∨ c = '6' ∨
    c = '7' ∨ c = '8' ∨ c = '9' := by
  simp only [isDigit, Bool.or_eq_true, beq_iff_eq] at h
  tauto

theorem allDigits_of (l : List Char) (h : ∀ c ∈ l, isDigit c = true) :
    allDigits l = true := by
  simpa [allDigits, List.all_eq_true] using h

theorem stripSign_not_sign (c : Char) (r : List Char) (h1 : c ≠ '-')
    (h2 : c ≠ '+') : stripSign (c :: r) = (false, c :: r) := by
  unfold stripSign
  split
  · next heq =>
    rw [List.cons.injEq] at heq
    exact absurd heq.1 h1
  · next heq =>
    rw [List.cons.injEq] at heq
    exact absurd heq.1 h2
  · rfl

theorem isDigit_not_dot (c : Char) (h : isDigit c = true) :
    (c == '.') = false := by
  rcases digit_cases c h with h|h|h|h|h|h|h|h|h|h <;> subst h <;> decide

theorem isDigit_not_eE (c : Char) (h : isDigit c = true) :
    (c == 'e' || c == 'E') = false := by
  rcases digit_cases c h with h|h|h|h|h|h|h|h|h|h <;> subst h <;> decide

theorem isDigit_lower (c : Char) (h : isDigit c = true) : lowerChar c = c := by
  rcases digit_cases c h with h|h|h|h|h|h|h|h|h|h <;> subst h <;> decide

theorem isDigit_ne_minus (c : Char) (h : isDigit c = true) : c ≠ '-' := by
  rcases digit_cases c h with h|h|h|h|h|h|h|h|h|h <;> subst h <;> decide

theorem isDigit_ne_plus (c : Char) (h : isDigit c = true) : c ≠ '+' := by
  rcases digit_cases c h with h|h|h|h|h|h|h|h|h|h <;> subst h <;> decide

theorem isDigit_ne_i (c : Char) (h : isDigit c = true) : c ≠ 'i' := by
  rcases digit_cases c h with h|h|h|h|h|h|h|h|h|h <;> subst h <;> decide

theorem isDigit_ne_n (c : Char) (h : isDigit c = true) : c ≠ 'n' := by
  rcases digit_cases c h with h|h|h|h|h|h|h|h|h|h <;> subst h <;> decide

theorem isInfNan_false_of_head (c : Char) (r : List Char)
    (hi : lowerChar c ≠ 'i') (hn : lowerChar c ≠ 'n') :
    isInfNan (c :: r) = false := by
  simp only [isInfNan, List.map_cons, Bool.or_eq_false_iff,
    decide_eq_false_iff_not, List.cons.injEq, not_and]
  tauto

theorem parseMantissa_dot (d1 d2 : List Char)
    (h1 : ∀ c ∈ d1, isDigit c = true) (h2 : ∀ c ∈ d2, isDigit c = true)
    (hne : d1 ≠ [] ∨ d2 ≠ []) :
    parseMantissa (d1 ++ '.' :: d2) =
      some ((natOfDigits d1 : ℚ) + (natOfDigits d2 : ℚ) / 10 ^ d2.length) := by
  have hsplit : splitFirstP (fun c => c == '.') (d1 ++ '.' :: d2) =
      some (d1, d2) :=
    splitFirstP_append _ d1 d2 '.'
      (fun c hc => isDigit_not_dot c (h1 c hc)) (by decide)
  simp only [parseMantissa, hsplit]
  rw [if_pos ⟨hne, allDigits_of d1 h1, allDigits_of d2 h2⟩]

theorem parseMantissa_int (d : List Char) (h : ∀ c ∈ d, isDigit c = true)
    (hd : d ≠ []) : parseMantissa d = some ((natOfDigits d : ℚ)) := by
  have hsplit : splitFirstP (fun c => c == '.') d = none :=
    splitFirstP_none_of _ d (fun c hc => isDigit_not_dot c (h c hc))
  simp only [parseMantissa, hsplit]
  rw [if_pos ⟨hd, allDigits_of d h⟩]

/-- Behaviour of `stripSign` on a signed decimal literal. -/
theorem stripSign_signed (neg : Bool) (r : List Char)
    (hr : ∀ c ∈ r.take 1, c ≠ '-' ∧ c ≠ '+') :
    stripSign ((if neg then ['-'] else []) ++ r) = (neg, r) := by
  cases neg with
  | true => rfl
  | false =>
    simp only [Bool.false_eq_true, if_false, List.nil_append]
    cases r with
    | nil => rfl
    | cons c tl =>
      have hc := hr c (by simp [List.take])
      exact stripSign_not_sign c tl hc.1 hc.2

/-- The float parse of a plain decimal literal with a point,
`[-] d1 '.' d2`, yields exactly its decimal value (exact in the rational
model; the real `f64` parse rounds this value to the nearest double). -/
theorem parseF64_decimal (neg : Bool) (d1 d2 : List Char)
    (h1 : ∀ c ∈ d1, isDigit c = true) (h2 : ∀ c ∈ d2, isDigit c = true)
    (hne : d1 ≠ [] ∨ d2 ≠ []) :
    parseF64 ((if neg then ['-'] else []) ++ (d1 ++ '.' :: d2)) =
      some (decValue neg d1 d2) := by
  have hstrip : stripSign ((if neg then ['-'] else []) ++ (d1 ++ '.' :: d2)) =
      (neg, d1 ++ '.' :: d2) := by
    refine stripSign_signed neg _ (fun c hc => ?_)
    cases d1 with
    | nil =>
      simp only [List.nil_append, List.take, List.mem_singleton] at hc
      subst hc
      exact ⟨by decide, by decide⟩
    | cons a tl =>
      simp only [List.cons_append, List.take, List.mem_singleton] at hc
      have ha := h1 a (List.mem_cons_self a tl)
      rw [hc]
      exact ⟨isDigit_ne_minus a ha, isDigit_ne_plus a ha⟩
  have hinf : isInfNan (d1 ++ '.' :: d2) = false := by
    cases d1 with
    | nil => exact isInfNan_false_of_head '.' d2 (by decide) (by decide)
    | cons a tl =>
      have ha := h1 a (List.mem_cons_self a tl)
      rw [List.cons_append]
      refine isInfNan_false_of_head a _ ?_ ?_ <;> rw [isDigit_lower a ha]
      · exact isDigit_ne_i a ha
      · exact isDigit_ne_n a ha
  have hee : splitFirstP (fun c => c == 'e' || c == 'E')
      (d1 ++ '.' :: d2) = none := by
    refine splitFirstP_none_of _ _ (fun c hc => ?_)
    rcases List.mem_append.mp hc with h | h
    · exact isDigit_not_eE c (h1 c h)
    · rcases List.mem_cons.mp h with h | h
      · subst h; decide
      · exact isDigit_not_eE c (h2 c h)
  have hmant := parseMantissa_dot d1 d2 h1 h2 hne
  simp only [parseF64, hstrip, hinf, Bool.false_eq_true, if_false, hee,
    hmant, decValue]

/-- The float parse of a plain integer literal `[-] d1` yields exactly
its decimal value. -/
theorem parseF64_int (neg : Bool) (d1 : List Char)
    (h1 : ∀ c ∈ d1, isDigit c = true) (hd1 : d1 ≠ []) :
    parseF64 ((if neg then ['-'] else []) ++ d1) =
      some ((if neg then (-1 : ℚ) else 1) * (natOfDigits d1 : ℚ)) := by
  have hstrip : stripSign ((if neg then ['-'] else []) ++ d1) = (neg, d1) := by
    refine stripSign_signed neg _ (fun c hc => ?_)
    have hc' : c ∈ d1 := List.mem_of_mem_take hc
    exact ⟨isDigit_ne_minus c (h1 c hc'), isDigit_ne_plus c (h1 c hc')⟩
  have hinf : isInfNan d1 = false := by
    cases d1 with
    | nil => cases hd1 rfl
    | cons a tl =>
      have ha := h1 a (List.mem_cons_self a tl)
      refine isInfNan_false_of_head a _ ?_ ?_ <;> rw [isDigit_lower a ha]
      · exact isDigit_ne_i a ha
      · exact isDigit_ne_n a ha
  have hee : splitFirstP (fun c => c == 'e' || c == 'E') d1 = none :=
    splitFirstP_none_of _ _ (fun c hc => isDigit_not_eE c (h1 c hc))
  have hmant := parseMantissa_int d1 h1 hd1
  simp only [parseF64, hstrip, hinf, Bool.false_eq_true, if_false, hee, hmant]

/-- Splitting behaviour of `parse_data`: the line is cut at the first
`';'` and the remainder is float-parsed. -/
theorem parse_data_append (name rest : List Char) (h : ';' ∉ name) :
    StationData.parse_data (name ++ ';' :: rest) =
      (match parseF64 rest with
       | none => none
       | some v => some (name, v)) := by
  have hsplit : splitFirstP (fun c => c == ';') (name ++ ';' :: rest) =
      some (name, rest) :=
    splitFirstP_append _ name rest ';'
      (fun c hc => beq_eq_false_iff_ne.mpr (fun e => h (e ▸ hc))) (by decide)
  simp only [StationData.parse_data, hsplit]

/-- C5 counterexample: on the line `"A;10.0"` the parser produces `10` —
the decimal value itself — not the claimed integer `decimal value × 10`
(which would be `100`); the parsed value is an `f64`, not a fixed-point
integer. -/
theorem c5_not_times_ten :
    StationData.parse_data "A;10.0".toList = some ("A".toList, 10) ∧
    decValue false ['1', '0'] ['0'] * 10 = 100 ∧ (10 : ℚ) ≠ 100 := by
  refine ⟨?_, by norm_num [decValue, natOfDigits, digitVal], by norm_num⟩
  norm_num +decide [StationData.parse_data, parseF64, parseMantissa,
    splitFirstP, stripSign, isInfNan, allDigits, isDigit, natOfDigits,
    digitVal, lowerChar]

/-- C5 (amended): for every line whose value consists of an optional
leading `'-'`, digits and at most one `'.'` (with at least one digit), the
parser produces the number exactly equal to the decimal value itself — not
the value times ten (exact in the rational model of `f64`; the actual
`f64` parse rounds that value to the nearest double).  A value outside the
float grammar makes the parse fail (`unwrap` panic, modelled as `none`),
though the grammar accepts more than the claim's byte set (exponents,
`inf`, `nan`). -/
theorem c5_parse_decimal_value (name : List Char) (hname : ';' ∉ name)
    (neg : Bool) (d1 d2 : List Char) (h1 : ∀ c ∈ d1, isDigit c = true)
    (h2 : ∀ c ∈ d2, isDigit c = true) (hne : d1 ≠ [] ∨ d2 ≠ []) :
    StationData.parse_data
        (name ++ ';' :: ((if neg then ['-'] else []) ++ (d1 ++ '.' :: d2))) =
      some (name, decValue neg d1 d2) ∧
    (d1 ≠ [] →
      StationData.parse_data
          (name ++ ';' :: ((if neg then ['-'] else []) ++ d1)) =
        some (name, (if neg then (-1 : ℚ) else 1) * (natOfDigits d1 : ℚ))) := by
  constructor
  · rw [parse_data_append _ _ hname, parseF64_decimal neg d1 d2 h1 h2 hne]
  · intro hd1
    rw [parse_data_append _ _ hname, parseF64_int neg d1 h1 hd1]

/-- Witness for `c5_parse_decimal_value`: the record `"A;-12.3"` parses to
exactly `-123/10`. -/
theorem c5_parse_decimal_value_witness :
    StationData.parse_data
        ("A".toList ++ ';' :: ((if true then ['-'] else []) ++
          (['1', '2'] ++ '.' :: ['3']))) =
      some ("A".toList, decValue true ['1', '2'] ['3']) ∧
    decValue true ['1', '2'] ['3'] = -123 / 10 := by
  constructor
  · exact (c5_parse_decimal_value "A".toList (by decide) true ['1', '2']
      ['3'] (by decide) (by decide) (by decide)).1
  · norm_num [decValue, natOfDigits, digitVal]
